import Mathlib

/-!
Verification of the ETF price-response lag analysis engine
(`qqqBot/etf_lag_analysis.py`): tick-series nearest-time lookup,
nearest-rank percentile, the rolling-ratio sampler, the move/lag detector
and the stop-trigger simulator.  Timestamps are modelled as integers
(epoch milliseconds) and prices/percentages as rationals; Python's float
literals (0.005, 0.5, 1.5, 0.05, 0.03, ...) are taken at their exact
decimal values.  `Rat.floor` is used for computability; it agrees with
the mathematical floor.
-/

set_option maxRecDepth 40000

namespace EtfLag

/-- A tick: `(epoch_ms, price)`, as produced by `load_ticks`. -/
abbrev Tick := ℤ × ℚ

/-- Truncation toward zero, Python's `int(...)` applied to a rational. -/
def pyInt (x : ℚ) : ℤ :=
  if 0 ≤ x then Rat.floor x else -Rat.floor (-x)

/-- Round to the nearest integer, ties to even — Python's `round(x)`. -/
def roundHalfEven (x : ℚ) : ℤ :=
  if x - Rat.floor x < 1/2 then Rat.floor x
  else if x - Rat.floor x > 1/2 then Rat.floor x + 1
  else if 2 ∣ Rat.floor x then Rat.floor x else Rat.floor x + 1

/-- Python's `round(x, ndigits)` on rationals (decimal, ties to even). -/
def pyRound (x : ℚ) (ndigits : ℕ) : ℚ :=
  (roundHalfEven (x * 10 ^ ndigits) : ℚ) / 10 ^ ndigits

/-- Python's `range(start, stop, step)` for a positive step. -/
def pyRange (start stop step : ℕ) : List ℕ :=
  (List.range ((stop - start + step - 1) / step)).map (fun k => start + k * step)

/-- Python's `mean` from the `statistics` module, on a rational sample list. -/
def listMean (l : List ℚ) : ℚ := l.sum / l.length

/-- The bisection loop of `find_nearest_idx` (lines 48-54): narrow `[lo, hi]`
to the leftmost index whose timestamp is `≥ target`.  The source's `while`
loop is modelled with explicit fuel; `fuel = ticks.length` always suffices
since `hi - lo` strictly decreases at every iteration. -/
def findNearestLoop (ticks : List Tick) (target : ℤ) : ℕ → ℕ → ℕ → ℕ
  | 0, lo, _ => lo
  | fuel + 1, lo, hi =>
    if lo < hi then
      let mid := (lo + hi) / 2
      if (ticks.getD mid (0, 0)).1 < target then
        findNearestLoop ticks target fuel (mid + 1) hi
      else
        findNearestLoop ticks target fuel lo mid
    else lo

/-- Source `find_nearest_idx(ticks, target_ms)` (lines 41-58): binary search for the
index of the tick nearest to `target_ms`. -/
def find_nearest_idx (ticks : List Tick) (target_ms : ℤ) : ℕ :=
  if ticks.length = 0 then 0
  else
    let lo := findNearestLoop ticks target_ms ticks.length 0 (ticks.length - 1)
    if 0 < lo ∧ |(ticks.getD lo (0, 0)).1 - target_ms| > |(ticks.getD (lo - 1) (0, 0)).1 - target_ms|
    then lo - 1
    else lo

/-- Source `price_at_time(ticks, ms)` (lines 61-64): the nearest tick itself. -/
def price_at_time (ticks : List Tick) (ms : ℤ) : Tick :=
  ticks.getD (find_nearest_idx ticks ms) (0, 0)

/-- Source `percentile(sorted_list, pct)` (lines 67-73): nearest-rank percentile. -/
def percentile (sorted_list : List ℚ) (pct : ℚ) : ℚ :=
  if sorted_list.isEmpty then 0
  else
    let idx : ℤ := pyInt ((sorted_list.length : ℚ) * pct / 100)
    let idx2 : ℤ := max 0 (min idx ((sorted_list.length : ℤ) - 1))
    sorted_list.getD idx2.toNat 0

/-! Part 1 — rolling leverage ratio (lines 128-175) -/

/-- The body of the Part-1 sampling loop (lines 134-155) at reference index
`i`, for one window length: `some (t_ratio, s_ratio)` when the sample is
accepted (both ratios are appended together), `none` when it is skipped. -/
def ratioSampleAt (qqq tqqq sqqq : List Tick) (window_ms : ℤ) (i : ℕ) :
    Option (ℚ × ℚ) :=
  let q0 := qqq.getD i (0, 0)
  let q1 := price_at_time qqq (q0.1 + window_ms)
  let actual_gap := q1.1 - q0.1
  if (actual_gap : ℚ) < (window_ms : ℚ) * (1/2) ∨ (actual_gap : ℚ) > (window_ms : ℚ) * (3/2) then
    none
  else
    let q_pct := (q1.2 - q0.2) / q0.2 * 100
    if |q_pct| < 5/1000 then none
    else
      let t0 := price_at_time tqqq q0.1
      let t1 := price_at_time tqqq (q0.1 + window_ms)
      let t_pct := (t1.2 - t0.2) / t0.2 * 100
      let s0 := price_at_time sqqq q0.1
      let s1 := price_at_time sqqq (q0.1 + window_ms)
      let s_pct := (s1.2 - s0.2) / s0.2 * 100
      if q_pct ≠ 0 then some (t_pct / q_pct, s_pct / q_pct) else none

/-- The accepted `(t_ratio, s_ratio)` samples of one window
(stride `max 1 (len(qqq) / 500)`, line 133). -/
def ratioSamples (qqq tqqq sqqq : List Tick) (window_ms : ℤ) : List (ℚ × ℚ) :=
  (pyRange 0 qqq.length (max 1 (qqq.length / 500))).filterMap
    (ratioSampleAt qqq tqqq sqqq window_ms)

/-- Aggregate statistics printed for one window (lines 157-173). -/
structure WindowStats where
  n : ℕ
  t_med : ℚ
  t_p10 : ℚ
  t_p90 : ℚ
  s_med : ℚ
  s_p10 : ℚ
  s_p90 : ℚ
  t_mae : ℚ
  s_mae : ℚ
deriving DecidableEq

/-- Part-1 reporting for one window length: `some stats` when there are more
than 10 accepted samples, `none` ("insufficient data points") otherwise. -/
def windowReport (qqq tqqq sqqq : List Tick) (window_sec : ℤ) :
    Option WindowStats :=
  let samples := ratioSamples qqq tqqq sqqq (window_sec * 1000)
  let t_ratios := samples.map Prod.fst
  let s_ratios := samples.map Prod.snd
  if t_ratios.length > 10 then
    let t_sorted := t_ratios.insertionSort (· ≤ ·)
    let s_sorted := s_ratios.insertionSort (· ≤ ·)
    some {
      n := t_ratios.length
      t_med := pyRound (percentile t_sorted 50) 3
      t_p10 := pyRound (percentile t_sorted 10) 3
      t_p90 := pyRound (percentile t_sorted 90) 3
      s_med := pyRound (percentile s_sorted 50) 3
      s_p10 := pyRound (percentile s_sorted 10) 3
      s_p90 := pyRound (percentile s_sorted 90) 3
      t_mae := pyRound (listMean (t_ratios.map (fun r => |r - 3|))) 3
      s_mae := pyRound (listMean (s_ratios.map (fun r => |r - (-3)|))) 3 }
  else none

/-! Part 2 — price response lag (lines 186-253) -/

/-- The forward-offset ladder `watch_steps` (line 188), in milliseconds. -/
def watch_steps : List ℤ := [0, 1000, 2000, 5000, 10000, 20000, 30000]

/-- A derived series' percentage response at the tick nearest `check_ms`,
relative to its anchor price `p0` (lines 218-225). -/
def respPct (series : List Tick) (p0 : ℚ) (check_ms : ℤ) : ℚ :=
  ((price_at_time series check_ms).2 - p0) / p0 * 100

/-- The expression `(x / expected * 100) if expected != 0 else 100` — the achieved-ratio
expression of lines 231-232 and 238. -/
def achievedPct (x expected : ℚ) : ℚ :=
  if expected ≠ 0 then x / expected * 100 else 100

/-- The catch-up scan of lines 235-241: the first offset in the ladder whose
condition holds, `-1` if none does. -/
def catchupScan (p : ℤ → Prop) [DecidablePred p] : List ℤ → ℤ
  | [] => -1
  | o :: rest => if p o then o else catchupScan p rest

/-- One `MoveEvent` record, the dict appended at lines 243-253. -/
structure MoveEvent where
  direction : String
  qqq_move_pct : ℚ
  expected_tqqq : ℚ
  tqqq_at_end : ℚ
  t_achieved_pct : ℚ
  t_catchup_ms : ℤ
  expected_sqqq : ℚ
  sqqq_at_end : ℚ
  s_achieved_pct : ℚ
deriving DecidableEq

/-- The body of the Part-2 detection loop (lines 193-253) at reference index
`i`: `some event` when the detection is accepted, `none` when skipped. -/
def mkMoveEvent (qqq tqqq sqqq : List Tick) (i : ℕ) : Option MoveEvent :=
  let move_window_ms : ℤ := 10000
  let q0 := qqq.getD i (0, 0)
  let q1 := price_at_time qqq (q0.1 + move_window_ms)
  let gap := q1.1 - q0.1
  if gap < 5000 ∨ gap > 15000 then none
  else
    let q_pct := (q1.2 - q0.2) / q0.2 * 100
    if |q_pct| < 3/100 then none
    else
      let direction := if q_pct > 0 then "UP" else "DOWN"
      let expected_tqqq := q_pct * 3
      let expected_sqqq := q_pct * (-3)
      let t0 := price_at_time tqqq q0.1
      let s0 := price_at_time sqqq q0.1
      let t_at_end := respPct tqqq t0.2 (q0.1 + move_window_ms + 0)
      let s_at_end := respPct sqqq s0.2 (q0.1 + move_window_ms + 0)
      let t_achieved := achievedPct t_at_end expected_tqqq
      let s_achieved := achievedPct s_at_end expected_sqqq
      let t_catchup_ms := catchupScan
        (fun o => achievedPct (respPct tqqq t0.2 (q0.1 + move_window_ms + o)) expected_tqqq ≥ 90)
        watch_steps
      some {
        direction := direction
        qqq_move_pct := pyRound q_pct 4
        expected_tqqq := pyRound expected_tqqq 4
        tqqq_at_end := pyRound t_at_end 4
        t_achieved_pct := pyRound t_achieved 1
        t_catchup_ms := t_catchup_ms
        expected_sqqq := pyRound expected_sqqq 4
        sqqq_at_end := pyRound s_at_end 4
        s_achieved_pct := pyRound s_achieved 1 }

/-- The full `move_events` list of one session
(stride `max 1 (len(qqq) / 1000)`, line 191). -/
def moveEvents (qqq tqqq sqqq : List Tick) : List MoveEvent :=
  (pyRange 0 qqq.length (max 1 (qqq.length / 1000))).filterMap
    (mkMoveEvent qqq tqqq sqqq)

/-! Part 3 — stop-trigger scenario (lines 314-364) -/

/-- One trigger record, the dict appended at lines 341-346. -/
structure StopEvent where
  qqq_drop : ℚ
  tqqq_drop : ℚ
  ratio : ℚ
  tick_gap_ms : ℤ
deriving DecidableEq

/-- The mutable loop state of the Part-3 simulation: the two high-water
marks, the accumulated trigger events and the cooldown clock. -/
structure StopState where
  hwm : ℚ
  t_hwm : ℚ
  events : List StopEvent
  last_trigger_ms : ℤ
deriving DecidableEq

/-- The body of the Part-3 loop (lines 322-350) for one sampled reference
tick `q`: update the HWMs, then fire a trigger when the reference drawdown
lies in the band and the cooldown has elapsed. -/
def stopStep (tqqq : List Tick) (stop_pct : ℚ) (st : StopState) (q : Tick) :
    StopState :=
  let t_cur := price_at_time tqqq q.1
  let hwm1 := if q.2 > st.hwm then q.2 else st.hwm
  let t_hwm1 := if q.2 > st.hwm then t_cur.2 else st.t_hwm
  let t_hwm2 := if t_cur.2 > t_hwm1 then t_cur.2 else t_hwm1
  let q_drop := (hwm1 - q.2) / hwm1 * 100
  if q_drop ≥ stop_pct ∧ q_drop < stop_pct + 5/100 ∧ q.1 - st.last_trigger_ms > 60000 then
    let t_drop := (t_hwm2 - t_cur.2) / t_hwm2 * 100
    let ratio := if q_drop > 0 then t_drop / q_drop else 0
    { hwm := q.2
      t_hwm := t_cur.2
      events := st.events ++
        [{ qqq_drop := pyRound q_drop 4
           tqqq_drop := pyRound t_drop 4
           ratio := pyRound ratio 3
           tick_gap_ms := |t_cur.1 - q.1| }]
      last_trigger_ms := q.1 }
  else
    { hwm := hwm1, t_hwm := t_hwm2, events := st.events,
      last_trigger_ms := st.last_trigger_ms }

/-- The initial Part-3 state (lines 315-319). -/
def stopInit (qqq tqqq : List Tick) : StopState :=
  { hwm := (qqq.getD 0 (0, 0)).2
    t_hwm := (tqqq.getD 0 (0, 0)).2
    events := []
    last_trigger_ms := 0 }

/-- Folding the Part-3 loop body over a list of sampled reference ticks. -/
def stopFold (tqqq : List Tick) (stop_pct : ℚ) (st : StopState)
    (l : List Tick) : StopState :=
  l.foldl (stopStep tqqq stop_pct) st

/-- The reference ticks visited by the Part-3 loop:
`range(1, len(qqq), max(1, len(qqq) // 3000))` (lines 321-322). -/
def sampledStopTicks (qqq : List Tick) : List Tick :=
  (pyRange 1 qqq.length (max 1 (qqq.length / 3000))).map
    (fun i => qqq.getD i (0, 0))

/-- The whole Part-3 simulation for one threshold. -/
def runStop (qqq tqqq : List Tick) (stop_pct : ℚ) : StopState :=
  stopFold tqqq stop_pct (stopInit qqq tqqq) (sampledStopTicks qqq)

/-- The list of successive Part-3 states: the state before each sampled tick
and, last, the final state. -/
def stopTrace (tqqq : List Tick) (stop_pct : ℚ) (st : StopState) :
    List Tick → List StopState
  | [] => [st]
  | q :: rest => st :: stopTrace tqqq stop_pct (stopStep tqqq stop_pct st q) rest

/-- The reference drawdown computed at lines 329-336: the percentage drop of
the current price from the (just-updated) reference HWM. -/
def refDrop (st : StopState) (q : Tick) : ℚ :=
  ((if q.2 > st.hwm then q.2 else st.hwm) - q.2) /
    (if q.2 > st.hwm then q.2 else st.hwm) * 100

/-- The derived HWM after the update phase of one step (lines 329-333). -/
def derivedHwm2 (tqqq : List Tick) (st : StopState) (q : Tick) : ℚ :=
  let t_cur := price_at_time tqqq q.1
  let t_hwm1 := if q.2 > st.hwm then t_cur.2 else st.t_hwm
  if t_cur.2 > t_hwm1 then t_cur.2 else t_hwm1

/-- The derived drawdown computed on a trigger (line 338). -/
def derivedDrop (tqqq : List Tick) (st : StopState) (q : Tick) : ℚ :=
  (derivedHwm2 tqqq st q - (price_at_time tqqq q.1).2) / derivedHwm2 tqqq st q * 100

/-- The event recorded on a trigger (lines 341-346). -/
def trigEvent (tqqq : List Tick) (st : StopState) (q : Tick) : StopEvent :=
  { qqq_drop := pyRound (refDrop st q) 4
    tqqq_drop := pyRound (derivedDrop tqqq st q) 4
    ratio := pyRound
      (if refDrop st q > 0 then derivedDrop tqqq st q / refDrop st q else 0) 3
    tick_gap_ms := |(price_at_time tqqq q.1).1 - q.1| }

/-- The catch-up condition scanned at lines 236-239, for the long (3x)
derived series anchored at detection index `i`:
`(t_responses[offset] / expected_tqqq * 100) >= 90`. -/
def catchupCond (qqq tqqq : List Tick) (i : ℕ) (o : ℤ) : Prop :=
  achievedPct
    (respPct tqqq (price_at_time tqqq (qqq.getD i (0, 0)).1).2
      ((qqq.getD i (0, 0)).1 + 10000 + o))
    (((price_at_time qqq ((qqq.getD i (0, 0)).1 + 10000)).2 - (qqq.getD i (0, 0)).2) /
      (qqq.getD i (0, 0)).2 * 100 * 3) ≥ 90

instance (qqq tqqq : List Tick) (i : ℕ) (o : ℤ) :
    Decidable (catchupCond qqq tqqq i o) :=
  inferInstanceAs (Decidable (_ ≥ (90 : ℚ)))

/-- Modelled from the spec: the catch-up offset of the inverse (−3x) derived
series — the first offset of the forward ladder at which the inverse
series' achieved ratio reaches at least 90% of its expected move, with `-1`
as the not-reached sentinel.  The source computes a catch-up offset only
for the long (3x) series; this definition is the spec's per-derived-series
reading for the inverse series. -/
def s_catchup_spec (qqq sqqq : List Tick) (i : ℕ) : ℤ :=
  catchupScan
    (fun o => achievedPct
      (respPct sqqq (price_at_time sqqq (qqq.getD i (0, 0)).1).2
        ((qqq.getD i (0, 0)).1 + 10000 + o))
      (((price_at_time qqq ((qqq.getD i (0, 0)).1 + 10000)).2 - (qqq.getD i (0, 0)).2) /
        (qqq.getD i (0, 0)).2 * 100 * (-3)) ≥ 90)
    watch_steps

/-! Concrete data used by witnesses and counterexamples -/

/-- A small sorted tick series. -/
def ticksW : List Tick := [(0, 1), (10, 2), (25, 3)]

/-- A two-tick series whose midpoint 5 is equidistant from both ticks. -/
def ticksW2 : List Tick := [(0, 1), (10, 2)]

/-- Reference series: flat, then a new high while the derived series falls. -/
def qqqC2 : List Tick := [(0, 100), (1000, 100), (2000, 101)]

/-- Derived series: rises to 60, then falls to 40 as the reference peaks. -/
def tqqqC2 : List Tick := [(0, 50), (1000, 60), (2000, 40)]

/-- Reference series with a 0.2% drawdown tick at t=70000 and another
in-band tick at t=130000, exactly 60000 ms after the first trigger. -/
def qqqC3 : List Tick := [(0, 1000), (70000, 998), (130000, 996)]

/-- Companion derived series for `qqqC3`. -/
def tqqqC3 : List Tick := [(0, 500), (70000, 499), (130000, 498)]

/-- The state after the Part-3 loop has processed the tick at t=70000. -/
def st1C3 : StopState :=
  stopFold tqqqC3 (1/5) (stopInit qqqC3 tqqqC3) [((70000 : ℤ), (998 : ℚ))]

/-- Two sampled ticks both of which fire a trigger, 70000 ms apart. -/
def lW3 : List Tick := [(70000, 998), (140000, 996)]

/-- Reference series with one accepted detection: +0.1% over 10 s. -/
def qqqM : List Tick := [(0, 10000), (10000, 10010)]

/-- Long derived series: completes its full +0.3% at the move end. -/
def tqqqM : List Tick := [(0, 100), (10000, 1003/10)]

/-- Inverse derived series: only −0.1% at the move end (33% of expected),
the full −0.3% at offset 5000 ms. -/
def sqqqM : List Tick := [(0, 100), (10000, 999/10), (15000, 997/10)]

/-- The single move event produced on `qqqM`/`tqqqM`/`sqqqM`. -/
def evM : MoveEvent :=
  { direction := "UP", qqq_move_pct := 1/10, expected_tqqq := 3/10,
    tqqq_at_end := 3/10, t_achieved_pct := 100, t_catchup_ms := 0,
    expected_sqqq := -3/10, sqqq_at_end := -1/10, s_achieved_pct := 333/10 }

/-! Basic helper lemmas -/

theorem ratFloor_eq (x : ℚ) : Rat.floor x = ⌊x⌋ :=
  (Rat.floor_def' x).trans Rat.floor_def.symm

/-- A tick series sorted (non-strictly) by timestamp. -/
def TsSorted (ticks : List Tick) : Prop :=
  List.Chain' (fun a b : Tick => a.1 ≤ b.1) ticks

instance tsSortedDecidable : (ticks : List Tick) → Decidable (TsSorted ticks)
  | [] => isTrue List.chain'_nil
  | [_] => isTrue (by simp [TsSorted])
  | a :: b :: rest =>
    have h2 := tsSortedDecidable (b :: rest)
    decidable_of_iff (a.1 ≤ b.1 ∧ TsSorted (b :: rest))
      (show (a.1 ≤ b.1 ∧ List.Chain' (fun x y : Tick => x.1 ≤ y.1) (b :: rest)) ↔
          List.Chain' (fun x y : Tick => x.1 ≤ y.1) (a :: b :: rest) from
        (List.chain'_cons (R := fun x y : Tick => x.1 ≤ y.1)).symm)

theorem tsSorted_getD_mono (ticks : List Tick) (hs : TsSorted ticks)
    {i j : ℕ} (hij : i ≤ j) (hj : j < ticks.length) :
    (ticks.getD i (0, 0)).1 ≤ (ticks.getD j (0, 0)).1 := by
  induction j, hij using Nat.le_induction with
  | base => exact le_rfl
  | succ j hij ih =>
    have hj' : j < ticks.length := Nat.lt_of_succ_lt hj
    have hstep := List.chain'_iff_get.mp hs j (by omega)
    calc (ticks.getD i (0, 0)).1 ≤ (ticks.getD j (0, 0)).1 := ih hj'
      _ = (ticks.get ⟨j, hj'⟩).1 := by rw [List.getD_eq_get _ _ hj']
      _ ≤ (ticks.get ⟨j + 1, hj⟩).1 := hstep
      _ = (ticks.getD (j + 1) (0, 0)).1 := by rw [List.getD_eq_get _ _ hj]

/-! Binary-search correctness (claims C1 and C10) -/

theorem abs_dist_le_left {a b t : ℤ} (hab : a ≤ b) (hbt : b < t) :
    |b - t| ≤ |a - t| := by
  rw [abs_of_nonpos (by omega), abs_of_nonpos (by omega)]; omega

theorem abs_dist_le_right {a b t : ℤ} (hab : a ≤ b) (hta : t ≤ a) :
    |a - t| ≤ |b - t| := by
  rw [abs_of_nonneg (by omega), abs_of_nonneg (by omega)]; omega

/-- Invariant of the bisection loop: starting from a bracket `[lo, hi]` whose
left part is entirely below `target`, it returns the leftmost index of
`[lo, hi]` whose timestamp is `≥ target`, or `hi` if there is none. -/
theorem findNearestLoop_spec (ticks : List Tick) (target : ℤ)
    (hs : TsSorted ticks) :
    ∀ (fuel lo hi : ℕ), hi < ticks.length → lo ≤ hi → hi - lo ≤ fuel →
    (∀ k, k < lo → (ticks.getD k (0, 0)).1 < target) →
    (hi = ticks.length - 1 ∨ target ≤ (ticks.getD hi (0, 0)).1) →
    lo ≤ findNearestLoop ticks target fuel lo hi ∧
    findNearestLoop ticks target fuel lo hi ≤ hi ∧
    (∀ k, k < findNearestLoop ticks target fuel lo hi →
      (ticks.getD k (0, 0)).1 < target) ∧
    (findNearestLoop ticks target fuel lo hi = ticks.length - 1 ∨
      target ≤ (ticks.getD (findNearestLoop ticks target fuel lo hi) (0, 0)).1) := by
  intro fuel
  induction fuel with
  | zero =>
    intro lo hi hhi hlohi hfuel hlow hhigh
    have heq : lo = hi := by omega
    subst heq
    simp only [findNearestLoop]
    exact ⟨le_rfl, le_rfl, hlow, hhigh⟩
  | succ fuel ih =>
    intro lo hi hhi hlohi hfuel hlow hhigh
    by_cases hlt : lo < hi
    · simp only [findNearestLoop, if_pos hlt]
      have hmid1 : lo ≤ (lo + hi) / 2 := by omega
      have hmid2 : (lo + hi) / 2 < hi := by omega
      by_cases hc : (ticks.getD ((lo + hi) / 2) (0, 0)).1 < target
      · rw [if_pos hc]
        have hlow2 : ∀ k, k < (lo + hi) / 2 + 1 → (ticks.getD k (0, 0)).1 < target := by
          intro k hk
          exact lt_of_le_of_lt
            (tsSorted_getD_mono ticks hs (by omega) (by omega)) hc
        have h2 := ih ((lo + hi) / 2 + 1) hi hhi (by omega) (by omega) hlow2 hhigh
        exact ⟨by omega, h2.2.1, h2.2.2.1, h2.2.2.2⟩
      · rw [if_neg hc]
        push_neg at hc
        have h2 := ih lo ((lo + hi) / 2) (by omega) (by omega) (by omega) hlow (Or.inr hc)
        exact ⟨h2.1, by omega, h2.2.2.1, h2.2.2.2⟩
    · simp only [findNearestLoop, if_neg hlt]
      have heq : lo = hi := by omega
      subst heq
      exact ⟨le_rfl, le_rfl, hlow, hhigh⟩

/-- The post-loop adjustment of `find_nearest_idx`, written out. -/
theorem find_nearest_idx_eq (ticks : List Tick) (target : ℤ)
    (hn : ticks.length ≠ 0) :
    find_nearest_idx ticks target =
      if 0 < findNearestLoop ticks target ticks.length 0 (ticks.length - 1) ∧
         |(ticks.getD (findNearestLoop ticks target ticks.length 0 (ticks.length - 1)) (0, 0)).1 - target| >
           |(ticks.getD (findNearestLoop ticks target ticks.length 0 (ticks.length - 1) - 1) (0, 0)).1 - target|
      then findNearestLoop ticks target ticks.length 0 (ticks.length - 1) - 1
      else findNearestLoop ticks target ticks.length 0 (ticks.length - 1) := by
  unfold find_nearest_idx
  rw [if_neg hn]

/-- Claim C1: on a non-empty sorted tick series, `find_nearest_idx` returns
a valid index whose timestamp minimizes the absolute distance to the query
among all ticks; a query earlier than the first tick yields index `0` and a
query later than the last tick yields the last index. -/
theorem find_nearest_idx_minimizes (ticks : List Tick) (target : ℤ)
    (hs : TsSorted ticks) (hne : ticks ≠ []) :
    find_nearest_idx ticks target < ticks.length ∧
    (∀ j, j < ticks.length →
      |(ticks.getD (find_nearest_idx ticks target) (0, 0)).1 - target| ≤
        |(ticks.getD j (0, 0)).1 - target|) ∧
    (target < (ticks.getD 0 (0, 0)).1 → find_nearest_idx ticks target = 0) ∧
    ((ticks.getD (ticks.length - 1) (0, 0)).1 < target →
      find_nearest_idx ticks target = ticks.length - 1) := by
  have hn : ticks.length ≠ 0 := fun h => hne (List.length_eq_zero.mp h)
  obtain ⟨hr0, hrle, hlow, hhigh⟩ :=
    findNearestLoop_spec ticks target hs ticks.length 0 (ticks.length - 1)
      (by omega) (by omega) (by omega)
      (fun k hk => absurd hk (Nat.not_lt_zero k)) (Or.inl rfl)
  set r := findNearestLoop ticks target ticks.length 0 (ticks.length - 1) with hrdef
  rw [find_nearest_idx_eq ticks target hn, ← hrdef]
  -- distances of indices on each side of `r`
  have hdistlo : ∀ j, j < r →
      |(ticks.getD (r - 1) (0, 0)).1 - target| ≤ |(ticks.getD j (0, 0)).1 - target| := by
    intro j hj
    exact abs_dist_le_left
      (tsSorted_getD_mono ticks hs (by omega) (by omega))
      (hlow (r - 1) (by omega))
  have hdisthi : ∀ j, r ≤ j → j < ticks.length →
      |(ticks.getD r (0, 0)).1 - target| ≤ |(ticks.getD j (0, 0)).1 - target| := by
    intro j hrj hj
    rcases hhigh with h | h
    · have : j = r := by omega
      rw [this]
    · exact abs_dist_le_right (tsSorted_getD_mono ticks hs hrj hj) h
  refine ⟨?_, ?_, ?_, ?_⟩
  · split_ifs with h <;> omega
  · intro j hj
    split_ifs with h
    · obtain ⟨hpos, hcl⟩ := h
      rcases Nat.lt_or_ge j r with hjr | hjr
      · exact hdistlo j hjr
      · exact le_trans (le_of_lt hcl) (hdisthi j hjr hj)
    · rcases Nat.lt_or_ge j r with hjr | hjr
      · have hpos : 0 < r := by omega
        have hcl : ¬ |(ticks.getD r (0, 0)).1 - target| >
            |(ticks.getD (r - 1) (0, 0)).1 - target| := fun hc => h ⟨hpos, hc⟩
        exact le_trans (not_lt.mp hcl) (hdistlo j hjr)
      · exact hdisthi j hjr hj
  · intro hfirst
    have hr00 : r = 0 := by
      by_contra hc
      exact absurd (hlow 0 (by omega)) (not_lt.mpr (le_of_lt hfirst))
    rw [if_neg (by rw [hr00]; simp)]
    exact hr00
  · intro hlast
    have hrl : r = ticks.length - 1 := by
      rcases hhigh with h | h
      · exact h
      · exact absurd (lt_of_le_of_lt h
          (lt_of_le_of_lt (tsSorted_getD_mono ticks hs hrle (by omega)) hlast))
          (lt_irrefl target)
    by_cases hp : 0 < r
    · rw [if_neg, hrl]
      intro hc
      have hlow1 : (ticks.getD (r - 1) (0, 0)).1 < target := hlow (r - 1) (by omega)
      have hlast' : (ticks.getD r (0, 0)).1 < target := by rw [hrl]; exact hlast
      have hmono := tsSorted_getD_mono ticks hs (i := r - 1) (j := r) (by omega) (by omega)
      have := abs_dist_le_left hmono hlast'
      omega
    · rw [if_neg (by intro hc; exact hp hc.1)]
      omega

/-- Claim C10: when the query lies strictly between two neighbouring ticks,
`find_nearest_idx` returns the earlier index only when it is strictly
closer; in particular, at an exact tie it returns the later index. -/
theorem find_nearest_idx_tie_later (ticks : List Tick) (target : ℤ) (j : ℕ)
    (hs : TsSorted ticks) (hj : j + 1 < ticks.length)
    (hlt : (ticks.getD j (0, 0)).1 < target)
    (hgt : target < (ticks.getD (j + 1) (0, 0)).1) :
    find_nearest_idx ticks target =
      if target - (ticks.getD j (0, 0)).1 < (ticks.getD (j + 1) (0, 0)).1 - target
      then j else j + 1 := by
  have hn : ticks.length ≠ 0 := by omega
  obtain ⟨hr0, hrle, hlow, hhigh⟩ :=
    findNearestLoop_spec ticks target hs ticks.length 0 (ticks.length - 1)
      (by omega) (by omega) (by omega)
      (fun k hk => absurd hk (Nat.not_lt_zero k)) (Or.inl rfl)
  set r := findNearestLoop ticks target ticks.length 0 (ticks.length - 1) with hrdef
  have hrge : j + 1 ≤ r := by
    by_contra hc
    push_neg at hc
    rcases hhigh with h | h
    · omega
    · exact absurd (lt_of_le_of_lt (le_trans h
        (tsSorted_getD_mono ticks hs (i := r) (j := j) (by omega) (by omega))) hlt)
        (lt_irrefl target)
  have hrle2 : r ≤ j + 1 := by
    by_contra hc
    exact absurd hgt (not_lt.mpr (le_of_lt (hlow (j + 1) (by omega))))
  have hr : r = j + 1 := by omega
  rw [find_nearest_idx_eq ticks target hn, ← hrdef, hr]
  have e1 : |(ticks.getD (j + 1) (0, 0)).1 - target| =
      (ticks.getD (j + 1) (0, 0)).1 - target := abs_of_nonneg (by omega)
  have e2 : |(ticks.getD (j + 1 - 1) (0, 0)).1 - target| =
      target - (ticks.getD j (0, 0)).1 := by
    have : j + 1 - 1 = j := by omega
    rw [this, abs_of_nonpos (by omega), neg_sub]
  rw [e1, e2]
  have : j + 1 - 1 = j := by omega
  rw [this]
  split_ifs with h1 h2 h2
  · rfl
  · exact absurd (by omega : target - (ticks.getD j (0, 0)).1 <
      (ticks.getD (j + 1) (0, 0)).1 - target) h2
  · exact absurd (by omega : (ticks.getD (j + 1) (0, 0)).1 - target >
      target - (ticks.getD j (0, 0)).1) (by omega)
  · rfl

/-- Witness for C1: concrete applications of `find_nearest_idx_minimizes`. -/
theorem find_nearest_idx_minimizes_witness :
    find_nearest_idx ticksW 12 < 3 ∧
    |(ticksW.getD (find_nearest_idx ticksW 12) (0, 0)).1 - 12| ≤
      |(ticksW.getD 2 (0, 0)).1 - 12| ∧
    find_nearest_idx ticksW (-5) = 0 ∧
    find_nearest_idx ticksW 99 = 2 := by
  have h1 := find_nearest_idx_minimizes ticksW 12
    (by with_unfolding_all decide) (by with_unfolding_all decide)
  have h2 := find_nearest_idx_minimizes ticksW (-5)
    (by with_unfolding_all decide) (by with_unfolding_all decide)
  have h3 := find_nearest_idx_minimizes ticksW 99
    (by with_unfolding_all decide) (by with_unfolding_all decide)
  refine ⟨by simpa [ticksW] using h1.1, h1.2.1 2 (by with_unfolding_all decide),
    h2.2.2.1 (by with_unfolding_all decide), ?_⟩
  have h4 := h3.2.2.2 (by with_unfolding_all decide)
  simpa [ticksW] using h4

/-- Witness for C10: at the exact midpoint 5 of the ticks at 0 and 10,
`find_nearest_idx` returns the later index 1. -/
theorem find_nearest_idx_tie_later_witness : find_nearest_idx ticksW2 5 = 1 := by
  have h := find_nearest_idx_tie_later ticksW2 5 0
    (by with_unfolding_all decide) (by with_unfolding_all decide)
    (by with_unfolding_all decide) (by with_unfolding_all decide)
  rw [h]
  with_unfolding_all decide

/-! Claim C9 — rolling-ratio sampler guards -/

/-- Claim C9: a Part-1 ratio sample is recorded iff the actual time gap to
the tick nearest `T+window` lies within `[0.5w, 1.5w]` and the reference
move magnitude is at least the 0.005% noise floor; and the per-window
aggregate is reported iff at least 11 samples were accepted. -/
theorem ratio_sampler_guards :
    (∀ (qqq tqqq sqqq : List Tick) (window_ms : ℤ) (i : ℕ),
      (ratioSampleAt qqq tqqq sqqq window_ms i).isSome ↔
        ((window_ms : ℚ) * (1/2) ≤
            (((price_at_time qqq ((qqq.getD i (0, 0)).1 + window_ms)).1 -
              (qqq.getD i (0, 0)).1 : ℤ) : ℚ) ∧
         (((price_at_time qqq ((qqq.getD i (0, 0)).1 + window_ms)).1 -
              (qqq.getD i (0, 0)).1 : ℤ) : ℚ) ≤ (window_ms : ℚ) * (3/2) ∧
         5/1000 ≤ |((price_at_time qqq ((qqq.getD i (0, 0)).1 + window_ms)).2 -
              (qqq.getD i (0, 0)).2) / (qqq.getD i (0, 0)).2 * 100|)) ∧
    (∀ (qqq tqqq sqqq : List Tick) (window_sec : ℤ),
      (windowReport qqq tqqq sqqq window_sec).isSome ↔
        11 ≤ (ratioSamples qqq tqqq sqqq (window_sec * 1000)).length) := by
  constructor
  · intro qqq tqqq sqqq window_ms i
    simp only [ratioSampleAt]
    split_ifs with h1 h2 h3
    · simp only [Option.isSome_none, Bool.false_eq_true, false_iff]
      rintro ⟨ha, hb, _⟩
      rcases h1 with h | h
      · exact absurd ha (not_le.mpr h)
      · exact absurd hb (not_le.mpr h)
    · simp only [Option.isSome_none, Bool.false_eq_true, false_iff]
      rintro ⟨_, _, hc⟩
      exact absurd hc (not_le.mpr h2)
    · simp only [Option.isSome_some, true_iff]
      push_neg at h1
      exact ⟨h1.1, h1.2, not_lt.mp h2⟩
    · push_neg at h3
      rw [h3] at h2
      exact absurd (by norm_num : |(0 : ℚ)| < 5/1000) h2
  · intro qqq tqqq sqqq window_sec
    simp only [windowReport]
    split_ifs with h
    · simp only [Option.isSome_some, true_iff]
      rw [List.length_map] at h
      omega
    · simp only [Option.isSome_none, Bool.false_eq_true, false_iff]
      rw [List.length_map] at h
      omega

/-! Claim C6 — nearest-rank percentile -/

/-- Claim C6: for every list and every `p ≥ 0`, `percentile` returns the
element at index `floor(len * p / 100)` clamped to `[0, len-1]`
(nearest-rank, not interpolated); on the empty list it returns `0` for
every `p`; and `percentile [1,2,3,4,5] 50 = 3`. -/
theorem percentile_nearest_rank :
    (∀ p : ℚ, percentile [] p = 0) ∧
    percentile [1, 2, 3, 4, 5] 50 = 3 ∧
    (∀ (l : List ℚ) (p : ℚ), l ≠ [] → 0 ≤ p →
      min (Int.toNat ⌊(l.length : ℚ) * p / 100⌋) (l.length - 1) < l.length ∧
      percentile l p =
        l.getD (min (Int.toNat ⌊(l.length : ℚ) * p / 100⌋) (l.length - 1)) 0) := by
  refine ⟨fun p => rfl, by with_unfolding_all decide, ?_⟩
  intro l p hl hp
  have hlen : 1 ≤ l.length := List.length_pos.mpr hl
  have hx : 0 ≤ (l.length : ℚ) * p / 100 := by positivity
  have hfl : 0 ≤ ⌊(l.length : ℚ) * p / 100⌋ := Int.floor_nonneg.mpr hx
  refine ⟨by omega, ?_⟩
  show (if l.isEmpty then 0 else
      l.getD (max 0 (min (pyInt ((l.length : ℚ) * p / 100)) ((l.length : ℤ) - 1))).toNat 0) = _
  rw [if_neg (by simp [hl])]
  have hpy : pyInt ((l.length : ℚ) * p / 100) = ⌊(l.length : ℚ) * p / 100⌋ := by
    rw [pyInt, if_pos hx, ratFloor_eq]
  rw [hpy]
  have hidx : (max 0 (min ⌊(l.length : ℚ) * p / 100⌋ ((l.length : ℤ) - 1))).toNat =
      min (Int.toNat ⌊(l.length : ℚ) * p / 100⌋) (l.length - 1) := by omega
  rw [hidx]

/-- Witness for C6: a concrete application of `percentile_nearest_rank`. -/
theorem percentile_nearest_rank_witness : percentile [1, 2] 50 = 2 := by
  obtain ⟨h, he⟩ := percentile_nearest_rank.2.2 [1, 2] 50
    (by with_unfolding_all decide) (by with_unfolding_all decide)
  rw [he]
  with_unfolding_all decide

/-! Claim C8 — degenerate expected move -/

/-- Claim C8: when the expected derived move is exactly zero, the
achieved-percentage expression of the move detector is defined as `100`
(no division is attempted). -/
theorem achievedPct_zero_expected : ∀ x : ℚ, achievedPct x 0 = 100 := by
  intro x; simp [achievedPct]

/-! Claims C4 and C7 — the move/lag detector -/

/-- The scan `catchupScan` returns the first element of the list satisfying `p`
(`-1` if there is none); for a strictly increasing list this is the least
satisfying element. -/
theorem catchupScan_first (p : ℤ → Prop) [DecidablePred p] :
    ∀ l : List ℤ, l.Pairwise (· < ·) →
    (catchupScan p l = -1 ∧ ∀ o ∈ l, ¬ p o) ∨
    (catchupScan p l ∈ l ∧ p (catchupScan p l) ∧
      ∀ o ∈ l, o < catchupScan p l → ¬ p o) := by
  intro l
  induction l with
  | nil => intro _; left; exact ⟨rfl, by simp⟩
  | cons o rest ih =>
    intro hl
    simp only [catchupScan]
    by_cases hp : p o
    · rw [if_pos hp]
      right
      refine ⟨List.mem_cons_self o rest, hp, ?_⟩
      intro o2 ho2 hlt2
      rcases List.mem_cons.mp ho2 with rfl | hmem
      · intro _; omega
      · have := (List.pairwise_cons.mp hl).1 o2 hmem
        intro _; omega
    · rw [if_neg hp]
      rcases ih (List.Pairwise.of_cons hl) with ⟨he, hnone⟩ | ⟨hmem, hpe, hmin⟩
      · left
        refine ⟨he, ?_⟩
        intro o2 ho2
        rcases List.mem_cons.mp ho2 with rfl | hm
        · exact hp
        · exact hnone o2 hm
      · right
        refine ⟨List.mem_cons_of_mem o hmem, hpe, ?_⟩
        intro o2 ho2 hlt2
        rcases List.mem_cons.mp ho2 with rfl | hm
        · exact hp
        · exact hmin o2 hm hlt2

/-- Claim C4: for every accepted detection, `t_catchup_ms` is the first
offset of the ascending ladder at which the long derived series' response
over the expected move, times 100, reaches at least 90; the sentinel `-1`
(returned when no ladder offset qualifies) is distinct from every ladder
offset. -/
theorem move_catchup_first (qqq tqqq sqqq : List Tick) (i : ℕ) (e : MoveEvent)
    (h : mkMoveEvent qqq tqqq sqqq i = some e) :
    ((-1 : ℤ) ∉ watch_steps) ∧
    ((e.t_catchup_ms = -1 ∧ ∀ o ∈ watch_steps, ¬ catchupCond qqq tqqq i o) ∨
     (e.t_catchup_ms ∈ watch_steps ∧ catchupCond qqq tqqq i e.t_catchup_ms ∧
       ∀ o ∈ watch_steps, o < e.t_catchup_ms → ¬ catchupCond qqq tqqq i o)) := by
  refine ⟨by decide, ?_⟩
  simp only [mkMoveEvent] at h
  split_ifs at h
  all_goals
    obtain rfl := (Option.some.inj h).symm
    exact catchupScan_first (catchupCond qqq tqqq i) watch_steps (by decide)

/-- Witness for C4: the concrete accepted detection on
`qqqM`/`tqqqM`/`sqqqM`, whose recorded `t_catchup_ms` is `0`. -/
theorem move_catchup_first_witness :
    ((-1 : ℤ) ∉ watch_steps) ∧
    ((evM.t_catchup_ms = -1 ∧ ∀ o ∈ watch_steps, ¬ catchupCond qqqM tqqqM 0 o) ∨
     (evM.t_catchup_ms ∈ watch_steps ∧ catchupCond qqqM tqqqM 0 evM.t_catchup_ms ∧
       ∀ o ∈ watch_steps, o < evM.t_catchup_ms → ¬ catchupCond qqqM tqqqM 0 o)) :=
  move_catchup_first qqqM tqqqM sqqqM 0 evM (by with_unfolding_all decide)

/-- C7 (amended): the emitted record's only catch-up field, `t_catchup_ms`,
is the catch-up scan of the long (3x) derived series. -/
theorem moveEvent_records_long_catchup (qqq tqqq sqqq : List Tick) (i : ℕ)
    (e : MoveEvent) (h : mkMoveEvent qqq tqqq sqqq i = some e) :
    e.t_catchup_ms = catchupScan (catchupCond qqq tqqq i) watch_steps := by
  simp only [mkMoveEvent] at h
  split_ifs at h
  all_goals
    obtain rfl := (Option.some.inj h).symm
    rfl

/-- Witness for the amended C7: the concrete detection again. -/
theorem moveEvent_records_long_catchup_witness :
    evM.t_catchup_ms = catchupScan (catchupCond qqqM tqqqM 0) watch_steps :=
  moveEvent_records_long_catchup qqqM tqqqM sqqqM 0 evM (by with_unfolding_all decide)

/-- Counterexample to C7 as stated: on `qqqM`/`tqqqM`/`sqqqM` the single
emitted event carries the long series' catch-up offset (0 ms), while the
inverse series' catch-up offset per the spec's per-derived-series reading
is 5000 ms — a value that appears nowhere in the emitted record. -/
theorem moveEvent_no_inverse_catchup :
    moveEvents qqqM tqqqM sqqqM = [evM] ∧
    s_catchup_spec qqqM sqqqM 0 = 5000 ∧
    evM.t_catchup_ms ≠ 5000 ∧ evM.qqq_move_pct ≠ 5000 ∧
    evM.expected_tqqq ≠ 5000 ∧ evM.tqqq_at_end ≠ 5000 ∧
    evM.t_achieved_pct ≠ 5000 ∧ evM.expected_sqqq ≠ 5000 ∧
    evM.sqqq_at_end ≠ 5000 ∧ evM.s_achieved_pct ≠ 5000 := by
  with_unfolding_all decide

/-! Stop-trigger simulator: step lemmas (claims C2, C3, C5) -/

theorem stopFold_nil (tqqq : List Tick) (p : ℚ) (st : StopState) :
    stopFold tqqq p st [] = st := rfl

theorem stopFold_cons (tqqq : List Tick) (p : ℚ) (st : StopState)
    (q : Tick) (rest : List Tick) :
    stopFold tqqq p st (q :: rest) = stopFold tqqq p (stopStep tqqq p st q) rest := rfl

/-- When the trigger condition holds, one step appends a trigger event,
resets both HWMs to the current prices and updates the cooldown clock. -/
theorem stopStep_trigger (tqqq : List Tick) (p : ℚ) (st : StopState) (q : Tick)
    (h : p ≤ refDrop st q ∧ refDrop st q < p + 5/100 ∧
      q.1 - st.last_trigger_ms > 60000) :
    stopStep tqqq p st q =
      { hwm := q.2, t_hwm := (price_at_time tqqq q.1).2,
        events := st.events ++ [trigEvent tqqq st q], last_trigger_ms := q.1 } := by
  have hc : ((if q.2 > st.hwm then q.2 else st.hwm) - q.2) /
        (if q.2 > st.hwm then q.2 else st.hwm) * 100 ≥ p ∧
      ((if q.2 > st.hwm then q.2 else st.hwm) - q.2) /
        (if q.2 > st.hwm then q.2 else st.hwm) * 100 < p + 5/100 ∧
      q.1 - st.last_trigger_ms > 60000 := h
  simp only [stopStep]
  rw [if_pos hc]
  rfl

/-- When the trigger condition fails, one step only updates the HWMs. -/
theorem stopStep_no_trigger (tqqq : List Tick) (p : ℚ) (st : StopState) (q : Tick)
    (h : ¬(p ≤ refDrop st q ∧ refDrop st q < p + 5/100 ∧
      q.1 - st.last_trigger_ms > 60000)) :
    stopStep tqqq p st q =
      { hwm := if q.2 > st.hwm then q.2 else st.hwm,
        t_hwm := derivedHwm2 tqqq st q, events := st.events,
        last_trigger_ms := st.last_trigger_ms } := by
  have hc : ¬(((if q.2 > st.hwm then q.2 else st.hwm) - q.2) /
        (if q.2 > st.hwm then q.2 else st.hwm) * 100 ≥ p ∧
      ((if q.2 > st.hwm then q.2 else st.hwm) - q.2) /
        (if q.2 > st.hwm then q.2 else st.hwm) * 100 < p + 5/100 ∧
      q.1 - st.last_trigger_ms > 60000) := h
  simp only [stopStep]
  rw [if_neg hc]
  rfl

/-- Each step either appends exactly one event (setting the clock to the
tick's time, which is then more than the cooldown past the old clock), or
leaves events and clock unchanged. -/
theorem stopStep_events_len (tqqq : List Tick) (p : ℚ) (st : StopState) (q : Tick) :
    ((stopStep tqqq p st q).events.length = st.events.length + 1 ∧
     (stopStep tqqq p st q).last_trigger_ms = q.1 ∧
     q.1 - st.last_trigger_ms > 60000) ∨
    ((stopStep tqqq p st q).events = st.events ∧
     (stopStep tqqq p st q).last_trigger_ms = st.last_trigger_ms) := by
  by_cases h : p ≤ refDrop st q ∧ refDrop st q < p + 5/100 ∧
      q.1 - st.last_trigger_ms > 60000
  · rw [stopStep_trigger tqqq p st q h]
    exact Or.inl ⟨by simp, rfl, h.2.2⟩
  · rw [stopStep_no_trigger tqqq p st q h]
    exact Or.inr ⟨rfl, rfl⟩

theorem stopStep_events_extend (tqqq : List Tick) (p : ℚ) (st : StopState)
    (q : Tick) : ∃ suf, (stopStep tqqq p st q).events = st.events ++ suf := by
  by_cases h : p ≤ refDrop st q ∧ refDrop st q < p + 5/100 ∧
      q.1 - st.last_trigger_ms > 60000
  · exact ⟨[trigEvent tqqq st q], by rw [stopStep_trigger tqqq p st q h]⟩
  · exact ⟨[], by rw [stopStep_no_trigger tqqq p st q h, List.append_nil]⟩

theorem stopFold_events_extend (tqqq : List Tick) (p : ℚ) :
    ∀ (l : List Tick) (st : StopState),
    ∃ suf, (stopFold tqqq p st l).events = st.events ++ suf := by
  intro l
  induction l with
  | nil => intro st; exact ⟨[], by rw [stopFold_nil, List.append_nil]⟩
  | cons q rest ih =>
    intro st
    obtain ⟨s1, h1⟩ := stopStep_events_extend tqqq p st q
    obtain ⟨s2, h2⟩ := ih (stopStep tqqq p st q)
    exact ⟨s1 ++ s2, by rw [stopFold_cons, h2, h1, List.append_assoc]⟩

/-- A trigger-free head step of a trigger-free fold. -/
theorem stopFold_head_no_trigger (tqqq : List Tick) (p : ℚ) (st : StopState)
    (q : Tick) (rest : List Tick)
    (h : (stopFold tqqq p st (q :: rest)).events = st.events) :
    (stopStep tqqq p st q).events = st.events ∧
    (stopFold tqqq p (stopStep tqqq p st q) rest).events =
      (stopStep tqqq p st q).events := by
  obtain ⟨s1, h1⟩ := stopStep_events_extend tqqq p st q
  obtain ⟨s2, h2⟩ := stopFold_events_extend tqqq p rest (stopStep tqqq p st q)
  rw [stopFold_cons, h2, h1, List.append_assoc] at h
  have hlen := congrArg List.length h
  rw [List.length_append, List.length_append] at hlen
  have hs1 : s1 = [] := List.length_eq_zero.mp (by omega)
  have hs2 : s2 = [] := List.length_eq_zero.mp (by omega)
  subst hs1
  subst hs2
  rw [List.append_nil] at h1
  constructor
  · exact h1
  · rw [List.append_nil] at h2
    exact h2

/-- The derived-HWM update of one non-trigger step, in closed form. -/
theorem derivedHwm2_eq (tqqq : List Tick) (st : StopState) (q : Tick) :
    derivedHwm2 tqqq st q =
      (if q.2 > st.hwm then (price_at_time tqqq q.1).2
       else max st.t_hwm (price_at_time tqqq q.1).2) := by
  simp only [derivedHwm2]
  by_cases hq : q.2 > st.hwm
  · simp only [if_pos hq]
    simp
  · simp only [if_neg hq]
    split_ifs with h2
    · exact (max_eq_right (le_of_lt h2)).symm
    · exact (max_eq_left (not_lt.mp h2)).symm

/-! Claim C2 — the HWM update rule -/

/-- C2 (amended): over any stretch of the loop that fires no trigger, the
reference HWM is the running maximum of its start value and the sampled
reference prices; the derived HWM is NOT an independent running maximum:
at a non-trigger step it is reset to the concurrently looked-up derived
price whenever the reference sets a new high (possibly decreasing it), and
otherwise raised to that derived price when it is higher. -/
theorem stop_hwm_update_rule :
    (∀ (tqqq : List Tick) (p : ℚ) (st : StopState) (l : List Tick),
      (stopFold tqqq p st l).events = st.events →
      (stopFold tqqq p st l).hwm = l.foldl (fun m q => max m q.2) st.hwm) ∧
    (∀ (tqqq : List Tick) (p : ℚ) (st : StopState) (q : Tick),
      (stopStep tqqq p st q).events = st.events →
      (stopStep tqqq p st q).t_hwm =
        (if q.2 > st.hwm then (price_at_time tqqq q.1).2
         else max st.t_hwm (price_at_time tqqq q.1).2)) := by
  have hstep : ∀ (tqqq : List Tick) (p : ℚ) (st : StopState) (q : Tick),
      (stopStep tqqq p st q).events = st.events →
      stopStep tqqq p st q =
        { hwm := if q.2 > st.hwm then q.2 else st.hwm,
          t_hwm := derivedHwm2 tqqq st q, events := st.events,
          last_trigger_ms := st.last_trigger_ms } := by
    intro tqqq p st q hev
    have hnc : ¬(p ≤ refDrop st q ∧ refDrop st q < p + 5/100 ∧
        q.1 - st.last_trigger_ms > 60000) := by
      intro hcond
      rw [stopStep_trigger tqqq p st q hcond] at hev
      simp at hev
    exact stopStep_no_trigger tqqq p st q hnc
  constructor
  · intro tqqq p st l
    induction l generalizing st with
    | nil => intro _; rfl
    | cons q rest ih =>
      intro h
      obtain ⟨h1, h2⟩ := stopFold_head_no_trigger tqqq p st q rest h
      have hrec := hstep tqqq p st q h1
      have hmax : (stopStep tqqq p st q).hwm = max st.hwm q.2 := by
        rw [hrec]
        split_ifs with hq
        · exact (max_eq_right (le_of_lt hq)).symm
        · exact (max_eq_left (not_lt.mp hq)).symm
      calc (stopFold tqqq p st (q :: rest)).hwm
          = (stopFold tqqq p (stopStep tqqq p st q) rest).hwm := by
            rw [stopFold_cons]
        _ = rest.foldl (fun m q2 => max m q2.2) (stopStep tqqq p st q).hwm := by
            refine ih (stopStep tqqq p st q) ?_
            rw [stopFold_cons] at h
            rw [h2, h1]
        _ = (q :: rest).foldl (fun m q2 => max m q2.2) st.hwm := by
            rw [hmax, List.foldl_cons]
  · intro tqqq p st q hev
    rw [hstep tqqq p st q hev]
    exact derivedHwm2_eq tqqq st q

/-- Witness for the amended C2: the trigger-free run on `qqqC2`. -/
theorem stop_hwm_update_rule_witness :
    (stopFold tqqqC2 (1/5) (stopInit qqqC2 tqqqC2) (sampledStopTicks qqqC2)).hwm =
      (sampledStopTicks qqqC2).foldl (fun m q => max m q.2)
        (stopInit qqqC2 tqqqC2).hwm ∧
    (stopStep tqqqC2 (1/5) (stopInit qqqC2 tqqqC2) ((1000 : ℤ), (100 : ℚ))).t_hwm =
      (if (100 : ℚ) > (stopInit qqqC2 tqqqC2).hwm then (price_at_time tqqqC2 1000).2
       else max (stopInit qqqC2 tqqqC2).t_hwm (price_at_time tqqqC2 1000).2) := by
  constructor
  · exact stop_hwm_update_rule.1 tqqqC2 (1/5) (stopInit qqqC2 tqqqC2)
      (sampledStopTicks qqqC2) (by with_unfolding_all decide)
  · exact stop_hwm_update_rule.2 tqqqC2 (1/5) (stopInit qqqC2 tqqqC2) (1000, 100)
      (by with_unfolding_all decide)

/-- Counterexample to C2 as stated: on `qqqC2`/`tqqqC2` the run fires no
trigger (so there is no reset), the looked-up derived price 60 is observed
at t=1000, yet the final derived HWM is 40 < 60 — the derived HWM is not
the running maximum of the looked-up derived prices.  (The reference HWM,
101, is indeed the running maximum of the reference prices.) -/
theorem stop_hwm_not_independent :
    (runStop qqqC2 tqqqC2 (1/5)).events = [] ∧
    (price_at_time tqqqC2 1000).2 = 60 ∧
    (runStop qqqC2 tqqqC2 (1/5)).t_hwm = 40 ∧
    (runStop qqqC2 tqqqC2 (1/5)).hwm = 101 := by
  with_unfolding_all decide

/-! Claim C3 — trigger band and cooldown -/

/-- Index lemma: the head of a stop trace is its start state. -/
theorem stopTrace_getD_zero (tqqq : List Tick) (p : ℚ) (d : StopState) :
    ∀ (l : List Tick) (st : StopState), (stopTrace tqqq p st l).getD 0 d = st := by
  intro l st
  cases l <;> rfl

/-- If the event list grows at step `m` of a stop trace, the clock is set to
that tick's timestamp, which exceeds the previous clock by more than the
cooldown. -/
theorem stopTrace_trigger_step (tqqq : List Tick) (p : ℚ) (d : StopState) :
    ∀ (l : List Tick) (st : StopState) (m : ℕ), m < l.length →
    ((stopTrace tqqq p st l).getD (m + 1) d).events.length >
      ((stopTrace tqqq p st l).getD m d).events.length →
    ((stopTrace tqqq p st l).getD (m + 1) d).last_trigger_ms = (l.getD m (0, 0)).1 ∧
    (l.getD m (0, 0)).1 - ((stopTrace tqqq p st l).getD m d).last_trigger_ms > 60000 := by
  intro l
  induction l with
  | nil => intro st m hm; exact absurd hm (by simp)
  | cons q rest ih =>
    intro st m hm hg
    cases m with
    | zero =>
      simp only [stopTrace, List.getD_cons_zero, List.getD_cons_succ] at hg ⊢
      rw [stopTrace_getD_zero] at hg ⊢
      rcases stopStep_events_len tqqq p st q with ⟨h1, h2, h3⟩ | ⟨h1, _⟩
      · exact ⟨h2, h3⟩
      · rw [h1] at hg; omega
    | succ m2 =>
      simp only [stopTrace, List.getD_cons_succ] at hg ⊢
      exact ih (stopStep tqqq p st q) m2 (by simpa using hm) hg

/-- The cooldown clock never decreases along a stop trace. -/
theorem stopTrace_last_mono (tqqq : List Tick) (p : ℚ) (d : StopState) :
    ∀ (l : List Tick) (st : StopState) (a b : ℕ), a ≤ b → b ≤ l.length →
    ((stopTrace tqqq p st l).getD a d).last_trigger_ms ≤
      ((stopTrace tqqq p st l).getD b d).last_trigger_ms := by
  intro l
  induction l with
  | nil =>
    intro st a b hab hb
    have hb0 : b = 0 := by simpa using hb
    have ha0 : a = 0 := by omega
    rw [ha0, hb0]
  | cons q rest ih =>
    intro st a b hab hb
    cases a with
    | zero =>
      cases b with
      | zero => exact le_rfl
      | succ b2 =>
        simp only [stopTrace, List.getD_cons_zero, List.getD_cons_succ]
        have h1 : st.last_trigger_ms ≤ (stopStep tqqq p st q).last_trigger_ms := by
          rcases stopStep_events_len tqqq p st q with ⟨_, h2, h3⟩ | ⟨_, h2⟩ <;> omega
        calc st.last_trigger_ms
            ≤ (stopStep tqqq p st q).last_trigger_ms := h1
          _ = ((stopTrace tqqq p (stopStep tqqq p st q) rest).getD 0 d).last_trigger_ms := by
              rw [stopTrace_getD_zero]
          _ ≤ ((stopTrace tqqq p (stopStep tqqq p st q) rest).getD b2 d).last_trigger_ms :=
              ih (stopStep tqqq p st q) 0 b2 (by omega) (by simpa using hb)
    | succ a2 =>
      cases b with
      | zero => exact absurd hab (by omega)
      | succ b2 =>
        simp only [stopTrace, List.getD_cons_succ]
        exact ih (stopStep tqqq p st q) a2 b2 (by omega) (by simpa using hb)

/-- C3 (amended): a trigger event is recorded at a sampled tick iff the
reference drawdown lies in the half-open band `[threshold, threshold+0.05)`
and strictly more than the 60000 ms cooldown has elapsed since the last
trigger (clock initialized to 0); consequently any two triggers of one run
are strictly more than 60000 ms of tick-time apart. -/
theorem stop_trigger_band_cooldown :
    (∀ (tqqq : List Tick) (p : ℚ) (st : StopState) (q : Tick),
      (stopStep tqqq p st q).events.length = st.events.length + 1 ↔
        (p ≤ refDrop st q ∧ refDrop st q < p + 5/100 ∧
          q.1 - st.last_trigger_ms > 60000)) ∧
    (∀ (tqqq : List Tick) (p : ℚ) (d st : StopState) (l : List Tick) (j k : ℕ),
      j < k → k < l.length →
      ((stopTrace tqqq p st l).getD (j + 1) d).events.length >
        ((stopTrace tqqq p st l).getD j d).events.length →
      ((stopTrace tqqq p st l).getD (k + 1) d).events.length >
        ((stopTrace tqqq p st l).getD k d).events.length →
      (l.getD k (0, 0)).1 - (l.getD j (0, 0)).1 > 60000) := by
  constructor
  · intro tqqq p st q
    by_cases h : p ≤ refDrop st q ∧ refDrop st q < p + 5/100 ∧
        q.1 - st.last_trigger_ms > 60000
    · rw [stopStep_trigger tqqq p st q h]
      exact iff_of_true (by simp) h
    · rw [stopStep_no_trigger tqqq p st q h]
      refine iff_of_false ?_ h
      simp
  · intro tqqq p d st l j k hjk hk hgj hgk
    obtain ⟨hlj, _⟩ := stopTrace_trigger_step tqqq p d l st j (by omega) hgj
    obtain ⟨_, hgapk⟩ := stopTrace_trigger_step tqqq p d l st k hk hgk
    have hmono := stopTrace_last_mono tqqq p d l st (j + 1) k (by omega) (by omega)
    omega

/-- Witness for the amended C3: the first tick of `qqqC3` fires a trigger,
and on the two-trigger list `lW3` the trigger spacing bound applies. -/
theorem stop_trigger_band_cooldown_witness :
    (stopStep tqqqC3 (1/5) (stopInit qqqC3 tqqqC3) ((70000 : ℤ), (998 : ℚ))).events.length =
      (stopInit qqqC3 tqqqC3).events.length + 1 ∧
    (lW3.getD 1 (0, 0)).1 - (lW3.getD 0 (0, 0)).1 > 60000 := by
  constructor
  · exact (stop_trigger_band_cooldown.1 tqqqC3 (1/5) (stopInit qqqC3 tqqqC3)
      (70000, 998)).mpr (by with_unfolding_all decide)
  · exact stop_trigger_band_cooldown.2 tqqqC3 (1/5) (stopInit qqqC3 tqqqC3)
      (stopInit qqqC3 tqqqC3) lW3 0 1 (by omega) (by with_unfolding_all decide)
      (by with_unfolding_all decide) (by with_unfolding_all decide)

/-- Counterexample to C3 as stated: at the second sampled tick of `qqqC3`
the drawdown lies in the band and exactly 60000 ms (i.e. at least the
cooldown) have elapsed since the last trigger, yet no event is recorded —
the code requires strictly more than the cooldown. -/
theorem stop_trigger_cooldown_counterexample :
    sampledStopTicks qqqC3 = [(70000, 998), (130000, 996)] ∧
    (runStop qqqC3 tqqqC3 (1/5)).events.length = 1 ∧
    st1C3.events.length = 1 ∧ st1C3.last_trigger_ms = 70000 ∧
    (1/5 : ℚ) ≤ refDrop st1C3 (130000, 996) ∧
    refDrop st1C3 (130000, 996) < 1/5 + 5/100 ∧
    (130000 : ℤ) - st1C3.last_trigger_ms ≥ 60000 ∧
    (stopStep tqqqC3 (1/5) st1C3 (130000, 996)).events.length =
      st1C3.events.length := by
  with_unfolding_all decide

/-! Claim C5 — the trigger's reset semantics -/

/-- Claim C5: on a trigger, the step records the simultaneous derived
drawdown and the derived/reference drawdown ratio, resets both HWMs to the
current reference and derived prices, sets the cooldown clock to the
current timestamp — and the reference drawdown against the reset HWM is 0. -/
theorem stop_trigger_resets (tqqq : List Tick) (p : ℚ) (st : StopState) (q : Tick)
    (h : p ≤ refDrop st q ∧ refDrop st q < p + 5/100 ∧
      q.1 - st.last_trigger_ms > 60000) :
    stopStep tqqq p st q =
      { hwm := q.2, t_hwm := (price_at_time tqqq q.1).2,
        events := st.events ++
          [{ qqq_drop := pyRound (refDrop st q) 4
             tqqq_drop := pyRound (derivedDrop tqqq st q) 4
             ratio := pyRound (if refDrop st q > 0
               then derivedDrop tqqq st q / refDrop st q else 0) 3
             tick_gap_ms := |(price_at_time tqqq q.1).1 - q.1| }]
        last_trigger_ms := q.1 } ∧
    ((stopStep tqqq p st q).hwm - q.2) / (stopStep tqqq p st q).hwm * 100 = 0 := by
  have h1 := stopStep_trigger tqqq p st q h
  refine ⟨h1, ?_⟩
  rw [h1]
  show (q.2 - q.2) / q.2 * 100 = 0
  simp

/-- Witness for C5: the trigger at t=70000 of the `qqqC3` run. -/
theorem stop_trigger_resets_witness :
    (stopStep tqqqC3 (1/5) (stopInit qqqC3 tqqqC3) ((70000 : ℤ), (998 : ℚ))).last_trigger_ms = 70000 ∧
    (stopStep tqqqC3 (1/5) (stopInit qqqC3 tqqqC3) ((70000 : ℤ), (998 : ℚ))).t_hwm =
      (price_at_time tqqqC3 70000).2 ∧
    ((stopStep tqqqC3 (1/5) (stopInit qqqC3 tqqqC3) ((70000 : ℤ), (998 : ℚ))).hwm - 998) /
      (stopStep tqqqC3 (1/5) (stopInit qqqC3 tqqqC3) ((70000 : ℤ), (998 : ℚ))).hwm * 100 = 0 := by
  have h := stop_trigger_resets tqqqC3 (1/5) (stopInit qqqC3 tqqqC3) (70000, 998)
    (by with_unfolding_all decide)
  refine ⟨?_, ?_, ?_⟩
  · rw [h.1]
  · rw [h.1]
  · exact h.2

end EtfLag
